import Mathlib

/-!
Shallow embedding of `src/services/auto-rip.service.js` (AutoRipService):
the polling / dedup / dispatch control loop of MakeMKV-Auto-Rip.

External collaborators (DiscService, RipService, AppConfig, timers) are
modelled as an explicit environment; the asynchronous callbacks are
sequentialized, matching the single-threaded cooperative execution of the
source.  JS `Map` objects are modelled as association lists with JS `Map`
insertion-order semantics (`set` updates an existing key in place and
appends a fresh key at the end).
-/

namespace AutoRip

/-- A cheaply detected disc, as returned by `DiscService.detectAvailableDiscs`:
drive number and disc title only. -/
structure Disc where
  driveNumber : Nat
  title : String
deriving DecidableEq, Repr

/-- A fully enriched disc record, as returned by
`DiscService.getCompleteDiscInfo`: drive number, title and file info. -/
structure DiscItem where
  driveNumber : Nat
  title : String
  fileInfo : List Nat
deriving DecidableEq, Repr

/-- The `(driveNumber, title)` projection of an enriched record. -/
def pairOf (it : DiscItem) : Disc :=
  ⟨it.driveNumber, it.title⟩

/-- A `Map<number, string>` modelled as an association list in insertion
order. -/
abbrev DriveMap := List (Nat × String)

/-- JS `Map.prototype.set`: update an existing key in place, append a fresh
key at the end. -/
def mapSet : DriveMap → Nat → String → DriveMap
  | [], k, v => [(k, v)]
  | (k', v') :: rest, k, v =>
    if k' = k then (k, v) :: rest else (k', v') :: mapSet rest k v

/-- JS `Map.prototype.get`. -/
def mapGet : DriveMap → Nat → Option String
  | [], _ => none
  | (k', v') :: rest, k => if k' = k then some v' else mapGet rest k

/-- JS `Map.prototype.has`. -/
def mapHas (m : DriveMap) (k : Nat) : Bool :=
  (mapGet m k).isSome

/-- Whether `needle` matches `hay` position by position from the start. -/
def matchesAt : List Char → List Char → Bool
  | [], _ => true
  | _ :: _, [] => false
  | a :: as, b :: bs => (a == b) && matchesAt as bs

/-- Whether `needle` occurs contiguously anywhere in the second list. -/
def subSearch (needle : List Char) : List Char → Bool
  | [] => needle.isEmpty
  | c :: rest => matchesAt needle (c :: rest) || subSearch needle rest

/-- JS `String.prototype.includes` (substring test). -/
def includesStr (s sub : String) : Bool :=
  subSearch sub.toList s.toList

/-- Mutable fields of the `AutoRipService` instance. -/
structure ServiceState where
  isPolling : Bool
  pollInterval : Option Nat
  processedDiscs : DriveMap
  currentOperation : Option String
  isChecking : Bool
deriving DecidableEq, Repr

/-- Which `RipService` entry point a batch is handed to. -/
inductive PipelineEntry where
  | processRippingQueue
  | processBackupQueue
deriving DecidableEq, Repr

/-- Observable effects of one service step: status events emitted on the
service, calls into the disc inventory and the processing pipeline, and log
output.  A `pipelineCall` records the `processedDiscs` map as it stands at
the moment the pipeline entry point is invoked. -/
inductive Effect where
  | statusEvent (st : String)
  | enrichCall (discs : List Disc)
  | pipelineCall (entry : PipelineEntry) (batch : List DiscItem) (trackerAtCall : DriveMap)
  | logWarning (msg : String)
  | logError (msg : String)
deriving DecidableEq, Repr

/-- Environment of a scan cycle: results of the external collaborator calls
(`Except.error msg` models a thrown error whose `message` is `msg`) and the
configured operating mode. -/
structure ScanEnv where
  detectAvailableDiscs : Except String (List Disc)
  getCompleteDiscInfo : List Disc → Except String (List DiscItem)
  autoRipMode : String
  pipelineResult : Except String Unit

/-- Iteration worker for `buildDriveMap`. -/
def buildDriveMapAux (m : DriveMap) : List Disc → DriveMap
  | [] => m
  | d :: rest => buildDriveMapAux (mapSet m d.driveNumber d.title) rest

/-- `detectedDiscs.forEach(disc => detectedDriveMap.set(disc.driveNumber, disc.title))`. -/
def buildDriveMap (discs : List Disc) : DriveMap :=
  buildDriveMapAux [] discs

/-- The cleanup loop of `checkDrives`: delete every tracker entry whose
drive is absent from the detected-drive map or whose title differs. -/
def cleanupProcessed (processed : DriveMap) (detectedDriveMap : DriveMap) : DriveMap :=
  processed.filter (fun e => decide (mapGet detectedDriveMap e.1 = some e.2))

/-- `commandDataItems.forEach(item => this.processedDiscs.set(item.driveNumber, item.title))`. -/
def markProcessed (m : DriveMap) : List DiscItem → DriveMap
  | [] => m
  | item :: rest => markProcessed (mapSet m item.driveNumber item.title) rest

/-- The catch block of `checkDrives`: log a warning unless the message is
falsy or contains "executable not found". -/
def warnEffects (msg : String) : List Effect :=
  if (msg != "") && !(includesStr msg "executable not found") then
    [.logWarning ("Auto-Rip polling warning: " ++ msg)]
  else []

/-- `AutoRipService.processDiscs`: early return on a null/empty batch;
otherwise set `currentOperation`, emit `processing`, mark every batch item
in `processedDiscs` before invoking the pipeline, route on
`AppConfig.autoRipMode`, swallow pipeline errors with an error log, and in
the `finally` block clear `currentOperation` and emit `scanning`. -/
def processDiscs (env : ScanEnv) (s : ServiceState)
    (commandDataItems : Option (List DiscItem)) : ServiceState × List Effect :=
  match commandDataItems with
  | none => (s, [])
  | some items =>
    if items.length = 0 then (s, [])
    else
      let s1 : ServiceState := { s with currentOperation := some "processing" }
      let marked := markProcessed s1.processedDiscs items
      let s2 : ServiceState := { s1 with processedDiscs := marked }
      let entry : PipelineEntry :=
        if env.autoRipMode = "backup" then .processBackupQueue else .processRippingQueue
      let errFx : List Effect :=
        match env.pipelineResult with
        | .ok _ => []
        | .error e => [.logError ("Auto-Rip processing failed: " ++ e)]
      let s3 : ServiceState := { s2 with currentOperation := none }
      (s3, [.statusEvent "processing", .pipelineCall entry items marked]
             ++ errFx ++ [.statusEvent "scanning"])

/-- `AutoRipService.checkDrives`: detect, build the drive map, clean up the
processed set, filter the new discs, enrich only those, and hand them to
`processDiscs`; any error thrown by the inventory calls is caught at the
scan-cycle boundary and reported through `warnEffects`. -/
def checkDrives (env : ScanEnv) (s : ServiceState) : ServiceState × List Effect :=
  match env.detectAvailableDiscs with
  | .error msg => (s, warnEffects msg)
  | .ok detectedDiscs =>
    let detectedDriveMap := buildDriveMap detectedDiscs
    let cleaned := cleanupProcessed s.processedDiscs detectedDriveMap
    let s1 : ServiceState := { s with processedDiscs := cleaned }
    let newDiscs := detectedDiscs.filter (fun d => !(mapHas cleaned d.driveNumber))
    if newDiscs.length > 0 then
      match env.getCompleteDiscInfo newDiscs with
      | .error msg => (s1, .enrichCall newDiscs :: warnEffects msg)
      | .ok completeDiscItems =>
        let r := processDiscs env s1 (some completeDiscItems)
        (r.1, .enrichCall newDiscs :: r.2)
    else (s1, [])

/-- The `setInterval` callback installed by `startPolling`: skip the tick
when an operation or a check is in progress, otherwise run one scan cycle
with `isChecking` set and clear it in the `finally` block.  The returned
`Bool` records whether a scan cycle was invoked. -/
def pollTick (env : ScanEnv) (s : ServiceState) : ServiceState × List Effect × Bool :=
  if s.currentOperation.isSome || s.isChecking then (s, [], false)
  else
    let s1 : ServiceState := { s with isChecking := true }
    let r := checkDrives env s1
    ({ r.1 with isChecking := false }, r.2, true)

/-- The host's timer table: the ids of currently active interval timers and
a fresh-id counter. -/
structure TimerWorld where
  nextId : Nat
  active : List Nat
deriving DecidableEq, Repr

/-- `setInterval`: register a fresh timer and return its id. -/
def setIntervalW (w : TimerWorld) : Nat × TimerWorld :=
  (w.nextId, { nextId := w.nextId + 1, active := w.active ++ [w.nextId] })

/-- `clearInterval`: deactivate the timer with the given id. -/
def clearIntervalW (w : TimerWorld) (i : Nat) : TimerWorld :=
  { w with active := w.active.filter (fun j => decide (j ≠ i)) }

/-- `AutoRipService.stopPolling`: clear the interval if one is set and reset
the handle to null. -/
def stopPolling (s : ServiceState) (w : TimerWorld) : ServiceState × TimerWorld :=
  match s.pollInterval with
  | some i => ({ s with pollInterval := none }, clearIntervalW w i)
  | none => (s, w)

/-- `AutoRipService.startPolling`: clear any existing interval first, then
install a fresh one and store its handle. -/
def startPolling (s : ServiceState) (w : TimerWorld) : ServiceState × TimerWorld :=
  let p := stopPolling s w
  let q := setIntervalW p.2
  ({ p.1 with pollInterval := some q.1 }, q.2)

/-- `AutoRipService.start`: no-op when already polling, otherwise set
`isPolling`, start the interval and emit `scanning`. -/
def start (s : ServiceState) (w : TimerWorld) : ServiceState × TimerWorld × List Effect :=
  if s.isPolling then (s, w, [])
  else
    let s1 : ServiceState := { s with isPolling := true }
    let p := startPolling s1 w
    (p.1, p.2, [.statusEvent "scanning"])

/-- `AutoRipService.stop`: no-op when not polling, otherwise clear
`isPolling`, stop the interval and emit `idle`. -/
def stop (s : ServiceState) (w : TimerWorld) : ServiceState × TimerWorld × List Effect :=
  if !s.isPolling then (s, w, [])
  else
    let s1 : ServiceState := { s with isPolling := false }
    let p := stopPolling s1 w
    (p.1, p.2, [.statusEvent "idle"])

/-- Last occurrence wins: the title the detected-disc list reports for a
drive, matching what `buildDriveMap` stores for it. -/
def lookupDisc : List Disc → Nat → Option String
  | [], _ => none
  | d :: rest, k =>
    match lookupDisc rest k with
    | some t => some t
    | none => if d.driveNumber = k then some d.title else none

/-- Bool discriminator for pipeline-call effects. -/
def isPipelineCall : Effect → Bool
  | .pipelineCall _ _ _ => true
  | _ => false

/-- The `cleaned`-up processed map a scan cycle computes from state `s` and
snapshot `detected` (the source's `this.processedDiscs` after the cleanup
loop). -/
def scanCleaned (s : ServiceState) (detected : List Disc) : DriveMap :=
  cleanupProcessed s.processedDiscs (buildDriveMap detected)

/-- The `newDiscs` a scan cycle selects: detected discs whose drive has no
entry in the cleaned processed map. -/
def scanNew (s : ServiceState) (detected : List Disc) : List Disc :=
  detected.filter (fun d => !(mapHas (scanCleaned s detected) d.driveNumber))

/-- Invariant of the poll timer: the handle is null exactly when no timer is
active, and otherwise names the unique active timer. -/
def timerInv (s : ServiceState) (w : TimerWorld) : Prop :=
  match s.pollInterval with
  | none => w.active = []
  | some i => w.active = [i]

/-- A lossless enrichment (every disc gains empty file info), used as a
concrete collaborator in witnesses. -/
def enrichId (l : List Disc) : Except String (List DiscItem) :=
  Except.ok (l.map (fun d => ⟨d.driveNumber, d.title, []⟩))

/-- Last occurrence wins over an enriched batch: the title the batch stores
for a drive, matching what `markProcessed` leaves in the tracker for it. -/
def lookupItem : List DiscItem → Nat → Option String
  | [], _ => none
  | it :: rest, k =>
    match lookupItem rest k with
    | some t => some t
    | none => if it.driveNumber = k then some it.title else none

/-- Sample state: polling, empty tracker, no operation in flight. -/
def sDemo : ServiceState := ⟨true, none, [], none, false⟩

/-- Sample state: polling, drive 1 already processed as "Movie A". -/
def sTracked : ServiceState := ⟨true, none, [(1, "Movie A")], none, false⟩

/-- Sample state: a processing run is in flight. -/
def sBusy : ServiceState := ⟨true, none, [], some "processing", false⟩

/-- Sample environment: drive 1 holds "Movie A", rip mode, everything
succeeds. -/
def envDemo : ScanEnv := ⟨Except.ok [⟨1, "Movie A"⟩], enrichId, "rip", Except.ok ()⟩

/-- Sample environment whose disc detection throws. -/
def envFail : ScanEnv := ⟨Except.error "scan failed", enrichId, "rip", Except.ok ()⟩

/-- Sample environment whose pipeline call fails. -/
def envPipeFail : ScanEnv :=
  ⟨Except.ok [⟨1, "Movie A"⟩], enrichId, "rip", Except.error "rip failed"⟩

/-- Sample environment with a misspelled operating mode. -/
def envTypo : ScanEnv := ⟨Except.ok [⟨1, "Movie A"⟩], enrichId, "bckp", Except.ok ()⟩

/-- Sample enriched batch for drive 1. -/
def demoBatch : List DiscItem := [⟨1, "Movie A", []⟩]

/-! ### Association-list map lemmas -/

theorem mapGet_mapSet (m : DriveMap) (k k' : Nat) (v : String) :
    mapGet (mapSet m k v) k' = if k' = k then some v else mapGet m k' := by
  induction m with
  | nil =>
    simp only [mapSet, mapGet]
    by_cases h : k = k'
    · simp [h]
    · rw [if_neg h, if_neg (fun hh => h hh.symm)]
  | cons e rest ih =>
    obtain ⟨k0, v0⟩ := e
    simp only [mapSet]
    by_cases h0 : k0 = k
    · subst h0
      simp only [if_pos rfl, mapGet]
      by_cases h1 : k0 = k'
      · subst h1
        simp
      · rw [if_neg h1, if_neg h1, if_neg (fun hh => h1 hh.symm)]
    · rw [if_neg h0]
      simp only [mapGet]
      by_cases h1 : k0 = k'
      · subst h1
        rw [if_pos rfl, if_pos rfl, if_neg h0]
      · rw [if_neg h1, if_neg h1, ih]

theorem mem_mapSet_of_ne {m : DriveMap} {d : Nat} {t : String} (k : Nat) (v : String)
    (hmem : (d, t) ∈ m) (hne : d ≠ k) : (d, t) ∈ mapSet m k v := by
  induction m with
  | nil => cases hmem
  | cons e rest ih =>
    obtain ⟨k0, v0⟩ := e
    simp only [mapSet]
    by_cases h0 : k0 = k
    · subst h0
      rw [if_pos rfl]
      rcases List.mem_cons.mp hmem with h | h
      · exact absurd (congrArg Prod.fst h) hne
      · exact List.mem_cons_of_mem _ h
    · rw [if_neg h0]
      rcases List.mem_cons.mp hmem with h | h
      · exact h ▸ List.mem_cons_self _ _
      · exact List.mem_cons_of_mem _ (ih h)

theorem mem_of_mem_mapSet {m : DriveMap} {d k : Nat} {t v : String}
    (hmem : (d, t) ∈ mapSet m k v) : (d, t) ∈ m ∨ (d = k ∧ t = v) := by
  induction m with
  | nil =>
    simp only [mapSet] at hmem
    rcases List.mem_cons.mp hmem with h | h
    · exact Or.inr ⟨congrArg Prod.fst h, congrArg Prod.snd h⟩
    · cases h
  | cons e rest ih =>
    obtain ⟨k0, v0⟩ := e
    simp only [mapSet] at hmem
    by_cases h0 : k0 = k
    · rw [if_pos h0] at hmem
      rcases List.mem_cons.mp hmem with h | h
      · exact Or.inr ⟨congrArg Prod.fst h, congrArg Prod.snd h⟩
      · exact Or.inl (List.mem_cons_of_mem _ h)
    · rw [if_neg h0] at hmem
      rcases List.mem_cons.mp hmem with h | h
      · exact Or.inl (h ▸ List.mem_cons_self _ _)
      · rcases ih h with h' | h'
        · exact Or.inl (List.mem_cons_of_mem _ h')
        · exact Or.inr h'

theorem mapSet_of_not_has {m : DriveMap} {k : Nat} (v : String)
    (h : mapHas m k = false) : mapSet m k v = m ++ [(k, v)] := by
  induction m with
  | nil => rfl
  | cons e rest ih =>
    obtain ⟨k0, v0⟩ := e
    simp only [mapHas, mapGet] at h
    by_cases h0 : k0 = k
    · rw [if_pos h0] at h
      simp at h
    · rw [if_neg h0] at h
      simp only [mapSet, if_neg h0, List.cons_append, List.cons.injEq, true_and]
      exact ih h

theorem mapGet_some_mem {m : DriveMap} {k : Nat} {t : String}
    (h : mapGet m k = some t) : (k, t) ∈ m := by
  induction m with
  | nil => cases h
  | cons e rest ih =>
    obtain ⟨k0, v0⟩ := e
    simp only [mapGet] at h
    by_cases h0 : k0 = k
    · rw [if_pos h0] at h
      subst h0
      cases h
      exact List.mem_cons_self _ _
    · rw [if_neg h0] at h
      exact List.mem_cons_of_mem _ (ih h)

theorem mapHas_of_mem {m : DriveMap} {k : Nat} {t : String}
    (h : (k, t) ∈ m) : mapHas m k = true := by
  induction m with
  | nil => cases h
  | cons e rest ih =>
    obtain ⟨k0, v0⟩ := e
    rcases List.mem_cons.mp h with h' | h'
    · injection h' with hk hv
      subst hk
      simp [mapHas, mapGet]
    · simp only [mapHas, mapGet]
      by_cases h0 : k0 = k
      · rw [if_pos h0]
        rfl
      · rw [if_neg h0]
        exact ih h'

theorem mapGet_append (m₁ m₂ : DriveMap) (k : Nat) :
    mapGet (m₁ ++ m₂) k =
      match mapGet m₁ k with
      | some t => some t
      | none => mapGet m₂ k := by
  induction m₁ with
  | nil => simp [mapGet]
  | cons e rest ih =>
    obtain ⟨k0, v0⟩ := e
    simp only [List.cons_append, mapGet, List.append_eq]
    by_cases h0 : k0 = k
    · rw [if_pos h0, if_pos h0]
    · rw [if_neg h0, if_neg h0, ih]

theorem mapGet_of_nodupKeys_mem {m : DriveMap} {k : Nat} {t : String}
    (hnd : (m.map Prod.fst).Nodup) (hmem : (k, t) ∈ m) : mapGet m k = some t := by
  induction m with
  | nil => cases hmem
  | cons e rest ih =>
    obtain ⟨k0, v0⟩ := e
    simp only [List.map_cons, List.nodup_cons] at hnd
    rcases List.mem_cons.mp hmem with h | h
    · cases h
      simp [mapGet]
    · have hne : k0 ≠ k := by
        intro hk
        exact hnd.1 (hk ▸ List.mem_map.mpr ⟨(k, t), h, rfl⟩)
      simp only [mapGet, if_neg hne]
      exact ih hnd.2 h

/-! ### Lookup lemmas for the detected-drive map and the marking loop -/

theorem lookupDisc_eq_none {ds : List Disc} {k : Nat}
    (h : ∀ d ∈ ds, d.driveNumber ≠ k) : lookupDisc ds k = none := by
  induction ds with
  | nil => rfl
  | cons d rest ih =>
    have h1 : lookupDisc rest k = none :=
      ih (fun d' hd' => h d' (List.mem_cons_of_mem _ hd'))
    simp only [lookupDisc, h1, if_neg (h d (List.mem_cons_self _ _))]

theorem lookupDisc_of_nodup {ds : List Disc} {d : Disc}
    (hnd : (ds.map Disc.driveNumber).Nodup) (hmem : d ∈ ds) :
    lookupDisc ds d.driveNumber = some d.title := by
  induction ds with
  | nil => cases hmem
  | cons d0 rest ih =>
    simp only [List.map_cons, List.nodup_cons] at hnd
    rcases List.mem_cons.mp hmem with h | h
    · subst h
      have hnone : lookupDisc rest d.driveNumber = none := by
        apply lookupDisc_eq_none
        intro d' hd' hk
        exact hnd.1 (hk ▸ List.mem_map.mpr ⟨d', hd', rfl⟩)
      simp [lookupDisc, hnone]
    · have h2 := ih hnd.2 h
      simp [lookupDisc, h2]

theorem mapGet_buildDriveMapAux (ds : List Disc) (m0 : DriveMap) (k : Nat) :
    mapGet (buildDriveMapAux m0 ds) k =
      match lookupDisc ds k with
      | some t => some t
      | none => mapGet m0 k := by
  induction ds generalizing m0 with
  | nil => rfl
  | cons d rest ih =>
    simp only [buildDriveMapAux, lookupDisc]
    rw [ih]
    cases h : lookupDisc rest k with
    | some t => simp
    | none =>
      simp only [mapGet_mapSet]
      by_cases hk : d.driveNumber = k
      · rw [if_pos hk.symm]
        simp only [if_pos hk]
      · rw [if_neg (fun hh => hk hh.symm)]
        simp only [if_neg hk]

theorem mapGet_buildDriveMap (ds : List Disc) (k : Nat) :
    mapGet (buildDriveMap ds) k = lookupDisc ds k := by
  rw [buildDriveMap, mapGet_buildDriveMapAux]
  cases lookupDisc ds k <;> rfl

theorem lookupItem_eq_none {items : List DiscItem} {k : Nat}
    (h : ∀ it ∈ items, it.driveNumber ≠ k) : lookupItem items k = none := by
  induction items with
  | nil => rfl
  | cons it rest ih =>
    have h1 : lookupItem rest k = none :=
      ih (fun it' hit' => h it' (List.mem_cons_of_mem _ hit'))
    simp only [lookupItem, h1, if_neg (h it (List.mem_cons_self _ _))]

theorem lookupItem_of_nodup {items : List DiscItem} {it : DiscItem}
    (hnd : (items.map DiscItem.driveNumber).Nodup) (hmem : it ∈ items) :
    lookupItem items it.driveNumber = some it.title := by
  induction items with
  | nil => cases hmem
  | cons it0 rest ih =>
    simp only [List.map_cons, List.nodup_cons] at hnd
    rcases List.mem_cons.mp hmem with h | h
    · subst h
      have hnone : lookupItem rest it.driveNumber = none := by
        apply lookupItem_eq_none
        intro it' hit' hk
        exact hnd.1 (hk ▸ List.mem_map.mpr ⟨it', hit', rfl⟩)
      simp [lookupItem, hnone]
    · have h2 := ih hnd.2 h
      simp [lookupItem, h2]

theorem mapGet_markProcessed (items : List DiscItem) (m0 : DriveMap) (k : Nat) :
    mapGet (markProcessed m0 items) k =
      match lookupItem items k with
      | some t => some t
      | none => mapGet m0 k := by
  induction items generalizing m0 with
  | nil => rfl
  | cons it rest ih =>
    simp only [markProcessed, lookupItem]
    rw [ih]
    cases h : lookupItem rest k with
    | some t => simp
    | none =>
      simp only [mapGet_mapSet]
      by_cases hk : it.driveNumber = k
      · rw [if_pos hk.symm]
        simp only [if_pos hk]
      · rw [if_neg (fun hh => hk hh.symm)]
        simp only [if_neg hk]

theorem mapGet_markProcessed_of_mem {items : List DiscItem} {it : DiscItem}
    (hnd : (items.map DiscItem.driveNumber).Nodup) (hmem : it ∈ items) (m : DriveMap) :
    mapGet (markProcessed m items) it.driveNumber = some it.title := by
  rw [mapGet_markProcessed, lookupItem_of_nodup hnd hmem]

theorem mem_markProcessed_of_ne {m : DriveMap} {d : Nat} {t : String} {items : List DiscItem}
    (hmem : (d, t) ∈ m) (h : ∀ it ∈ items, it.driveNumber ≠ d) :
    (d, t) ∈ markProcessed m items := by
  induction items generalizing m with
  | nil => exact hmem
  | cons it rest ih =>
    simp only [markProcessed]
    refine ih (mem_mapSet_of_ne _ _ hmem ?_) ?_
    · exact fun hd => (h it (List.mem_cons_self _ _)) hd.symm
    · exact fun it' hit' => h it' (List.mem_cons_of_mem _ hit')

theorem mem_of_mem_markProcessed {m : DriveMap} {d : Nat} {t : String} {items : List DiscItem}
    (hmem : (d, t) ∈ markProcessed m items) :
    (d, t) ∈ m ∨ ∃ it ∈ items, it.driveNumber = d ∧ it.title = t := by
  induction items generalizing m with
  | nil => exact Or.inl hmem
  | cons it rest ih =>
    simp only [markProcessed] at hmem
    rcases ih hmem with h | h
    · rcases mem_of_mem_mapSet h with h' | h'
      · exact Or.inl h'
      · exact Or.inr ⟨it, List.mem_cons_self _ _, h'.1.symm, h'.2.symm⟩
    · obtain ⟨it', hit', h'⟩ := h
      exact Or.inr ⟨it', List.mem_cons_of_mem _ hit', h'⟩

theorem mem_cleanupProcessed {m dm : DriveMap} {d : Nat} {t : String} :
    (d, t) ∈ cleanupProcessed m dm ↔ ((d, t) ∈ m ∧ mapGet dm d = some t) := by
  simp [cleanupProcessed, List.mem_filter]

theorem mapHas_cleanupProcessed_imp {m dm : DriveMap} {d : Nat}
    (h : mapHas (cleanupProcessed m dm) d = true) : mapHas m d = true := by
  simp only [mapHas, Option.isSome_iff_exists] at h
  obtain ⟨t, ht⟩ := h
  exact mapHas_of_mem (mem_cleanupProcessed.mp (mapGet_some_mem ht)).1

/-! ### Characterization of `processDiscs` and `checkDrives` -/

theorem processDiscs_eq {env : ScanEnv} {s : ServiceState} {items : List DiscItem}
    (h : items ≠ []) :
    processDiscs env s (some items) =
      ({ s with processedDiscs := markProcessed s.processedDiscs items,
                currentOperation := none },
       [Effect.statusEvent "processing",
        Effect.pipelineCall
          (if env.autoRipMode = "backup" then .processBackupQueue else .processRippingQueue)
          items (markProcessed s.processedDiscs items)]
         ++ (match env.pipelineResult with
             | .ok _ => []
             | .error e => [Effect.logError ("Auto-Rip processing failed: " ++ e)])
         ++ [Effect.statusEvent "scanning"]) := by
  have h0 : ¬ items.length = 0 := by simpa [List.length_eq_zero] using h
  simp only [processDiscs, if_neg h0]

theorem checkDrives_ok {env : ScanEnv} {s : ServiceState} {detected : List Disc}
    (hdet : env.detectAvailableDiscs = .ok detected) :
    checkDrives env s =
      (if (scanNew s detected).length > 0 then
        match env.getCompleteDiscInfo (scanNew s detected) with
        | .error msg =>
          ({ s with processedDiscs := scanCleaned s detected },
           Effect.enrichCall (scanNew s detected) :: warnEffects msg)
        | .ok out =>
          ((processDiscs env { s with processedDiscs := scanCleaned s detected } (some out)).1,
           Effect.enrichCall (scanNew s detected) ::
             (processDiscs env { s with processedDiscs := scanCleaned s detected } (some out)).2)
      else ({ s with processedDiscs := scanCleaned s detected }, [])) := by
  simp only [checkDrives, hdet, scanNew, scanCleaned]

theorem enrichId_sub : ∀ l out, enrichId l = Except.ok out → ∀ it ∈ out, pairOf it ∈ l := by
  intro l out h it hit
  simp only [enrichId, Except.ok.injEq] at h
  subst h
  obtain ⟨d, hd, rfl⟩ := List.mem_map.mp hit
  exact hd

theorem enrichId_total : ∀ l, ∃ out, enrichId l = Except.ok out ∧ out.map pairOf = l := by
  intro l
  refine ⟨_, rfl, ?_⟩
  rw [List.map_map]
  exact List.map_id l

/-! ### Claim theorems -/

/-- C8: calling `processDiscs` with a null/undefined or empty batch returns
immediately: the state (tracker, `currentOperation`, everything) is
unchanged and no effect — no status event, no pipeline call — is produced. -/
theorem processDiscs_empty_batch_noop (env : ScanEnv) (s : ServiceState) :
    processDiscs env s none = (s, []) ∧ processDiscs env s (some []) = (s, []) :=
  ⟨rfl, rfl⟩

/-- C7: for a non-empty batch, mode `rip` routes to `processRippingQueue`
and never to `processBackupQueue`, and mode `backup` routes to
`processBackupQueue` and never to `processRippingQueue`. -/
theorem processDiscs_mode_routing (env : ScanEnv) (s : ServiceState)
    (items : List DiscItem) (h : items ≠ []) :
    (env.autoRipMode = "rip" →
      (∃ tr, Effect.pipelineCall .processRippingQueue items tr
          ∈ (processDiscs env s (some items)).2) ∧
      (∀ b tr, Effect.pipelineCall .processBackupQueue b tr
          ∉ (processDiscs env s (some items)).2)) ∧
    (env.autoRipMode = "backup" →
      (∃ tr, Effect.pipelineCall .processBackupQueue items tr
          ∈ (processDiscs env s (some items)).2) ∧
      (∀ b tr, Effect.pipelineCall .processRippingQueue b tr
          ∉ (processDiscs env s (some items)).2)) := by
  rw [processDiscs_eq h]
  constructor
  · intro hm
    have hne : ¬ env.autoRipMode = "backup" := by rw [hm]; decide
    rw [if_neg hne]
    cases env.pipelineResult <;> simp
  · intro hm
    rw [if_pos hm]
    cases env.pipelineResult <;> simp

/-- C10: any configured mode other than the exact string "backup" —
misspellings, other strings, the empty string — routes to
`processRippingQueue`; no mode value is rejected. -/
theorem processDiscs_default_rip (env : ScanEnv) (s : ServiceState)
    (items : List DiscItem) (h : items ≠ []) (hm : env.autoRipMode ≠ "backup") :
    (∃ tr, Effect.pipelineCall .processRippingQueue items tr
        ∈ (processDiscs env s (some items)).2) ∧
    (∀ b tr, Effect.pipelineCall .processBackupQueue b tr
        ∉ (processDiscs env s (some items)).2) := by
  rw [processDiscs_eq h, if_neg hm]
  cases env.pipelineResult <;> simp

/-- C4: while a scan cycle is executing (`isChecking`) or a processing run
is executing (`currentOperation` set), a firing scheduler tick invokes no
scan cycle and has no effect at all: the tick is dropped. -/
theorem pollTick_dropped_when_busy (env : ScanEnv) (s : ServiceState)
    (h : s.currentOperation.isSome = true ∨ s.isChecking = true) :
    pollTick env s = (s, [], false) := by
  simp only [pollTick]
  rw [if_pos]
  rcases h with h | h <;> simp [h]

/-- C5 (amended): for every non-empty batch, whatever the pipeline outcome,
`processDiscs` clears the processing flag (`currentOperation` back to null)
as its terminal step, leaves `isPolling` untouched, and always publishes
the status event `scanning` as the final effect — unconditionally, whether
or not polling is still active. -/
theorem processDiscs_terminal_step (env : ScanEnv) (s : ServiceState)
    (items : List DiscItem) (h : items ≠ []) :
    (processDiscs env s (some items)).1.currentOperation = none ∧
    (processDiscs env s (some items)).1.isPolling = s.isPolling ∧
    (processDiscs env s (some items)).2.getLast? = some (Effect.statusEvent "scanning") := by
  rw [processDiscs_eq h]
  refine ⟨rfl, rfl, ?_⟩
  cases env.pipelineResult <;> simp

/-- C5 counterexample: with polling already stopped (`isPolling = false`),
`processDiscs` still publishes the `scanning` status event; publication is
unconditional, refuting the "if and only if polling is still active"
qualification of the claim. -/
theorem processDiscs_scanning_despite_stopped :
    (ServiceState.mk false none [] none false).isPolling = false ∧
    Effect.statusEvent "scanning" ∈
      (processDiscs ⟨Except.ok [], enrichId, "rip", Except.ok ()⟩
        (ServiceState.mk false none [] none false)
        (some [⟨1, "Movie A", []⟩])).2 :=
  ⟨rfl, by decide⟩

/-- C9: the single-timer invariant — `pollInterval` is null exactly when no
timer is active and otherwise names the unique active timer — is preserved
by `startPolling`, `stopPolling`, `start` and `stop`; `startPolling`
cancels any existing timer before installing a new one, and `stopPolling`
always resets the handle to null. -/
theorem single_timer_invariant (s : ServiceState) (w : TimerWorld) (h : timerInv s w) :
    timerInv (startPolling s w).1 (startPolling s w).2 ∧
    timerInv (stopPolling s w).1 (stopPolling s w).2 ∧
    (stopPolling s w).1.pollInterval = none ∧
    timerInv (start s w).1 (start s w).2.1 ∧
    timerInv (stop s w).1 (stop s w).2.1 := by
  cases hp : s.pollInterval with
  | none =>
    have ha : w.active = [] := by simpa [timerInv, hp] using h
    refine ⟨?_, ?_, ?_, ?_, ?_⟩
    · simp [startPolling, stopPolling, hp, setIntervalW, timerInv, ha]
    · simp [stopPolling, hp, timerInv, ha]
    · simp [stopPolling, hp]
    · by_cases hb : s.isPolling
      · simpa [start, hb, timerInv, hp] using ha
      · simp [start, hb, startPolling, stopPolling, hp, setIntervalW, timerInv, ha]
    · by_cases hb : s.isPolling
      · simp [stop, hb, stopPolling, hp, timerInv, ha]
      · simpa [stop, hb, timerInv, hp] using ha
  | some i =>
    have ha : w.active = [i] := by simpa [timerInv, hp] using h
    refine ⟨?_, ?_, ?_, ?_, ?_⟩
    · simp [startPolling, stopPolling, hp, setIntervalW, clearIntervalW, timerInv, ha]
    · simp [stopPolling, hp, clearIntervalW, timerInv, ha]
    · simp [stopPolling, hp]
    · by_cases hb : s.isPolling
      · simpa [start, hb, timerInv, hp] using ha
      · simp [start, hb, startPolling, stopPolling, hp, setIntervalW, clearIntervalW,
          timerInv, ha]
    · by_cases hb : s.isPolling
      · simp [stop, hb, stopPolling, hp, clearIntervalW, timerInv, ha]
      · simpa [stop, hb, timerInv, hp] using ha

/-- C6 (amended): an error thrown by the inventory calls is caught at the
scan-cycle boundary: the cycle ends early with no disc added to the Dedup
Tracker and no pipeline call, the tick's gate flag is restored as usual,
and the error is logged at warning level unless its message is empty
(falsy) or contains "executable not found", in which case the warning is
suppressed while the cycle is still aborted. -/
theorem checkDrives_transient_scan_error (env : ScanEnv) (s : ServiceState) (msg : String) :
    (env.detectAvailableDiscs = .error msg →
      checkDrives env s =
        (s, if (msg != "") && !(includesStr msg "executable not found") then
              [Effect.logWarning ("Auto-Rip polling warning: " ++ msg)]
            else [])) ∧
    (∀ detected, env.detectAvailableDiscs = .ok detected →
      scanNew s detected ≠ [] →
      env.getCompleteDiscInfo (scanNew s detected) = .error msg →
      checkDrives env s =
        ({ s with processedDiscs := scanCleaned s detected },
         Effect.enrichCall (scanNew s detected) ::
           (if (msg != "") && !(includesStr msg "executable not found") then
              [Effect.logWarning ("Auto-Rip polling warning: " ++ msg)]
            else []))) ∧
    (pollTick env s).1.isChecking = s.isChecking := by
  refine ⟨?_, ?_, ?_⟩
  · intro hdet
    simp only [checkDrives, hdet, warnEffects]
  · intro detected hdet hne henr
    rw [checkDrives_ok hdet, if_pos (by simpa [List.length_pos] using hne), henr]
    simp only [warnEffects]
  · by_cases hc : (s.currentOperation.isSome || s.isChecking) = true
    · simp only [pollTick, if_pos hc]
    · have hfalse : s.isChecking = false := by
        cases hIC : s.isChecking
        · rfl
        · exact absurd (by simp [hIC]) hc
      simp only [pollTick, if_neg hc]
      exact hfalse.symm

/-- C6 counterexample: an inventory error with an empty message does not
indicate that the executable is unavailable, yet no warning is logged (the
code tests the message for truthiness before the substring test); the cycle
still aborts with the state unchanged. -/
theorem checkDrives_empty_message_no_warning :
    includesStr "" "executable not found" = false ∧
    checkDrives ⟨Except.error "", enrichId, "rip", Except.ok ()⟩
        (ServiceState.mk true none [] none false) =
      (ServiceState.mk true none [] none false, []) :=
  ⟨rfl, rfl⟩

theorem mem_warnEffects {e : Effect} {msg : String} (h : e ∈ warnEffects msg) :
    e = Effect.logWarning ("Auto-Rip polling warning: " ++ msg) := by
  unfold warnEffects at h
  split at h
  · simpa using h
  · cases h

theorem checkDrives_effect_cases {env : ScanEnv} {s : ServiceState} {detected : List Disc}
    (hdet : env.detectAvailableDiscs = .ok detected) :
    ∀ e ∈ (checkDrives env s).2,
      e = Effect.enrichCall (scanNew s detected) ∨
      (∃ m, e = Effect.logWarning m) ∨
      (∃ m, e = Effect.logError m) ∨
      (∃ st, e = Effect.statusEvent st) ∨
      (∃ entry out, env.getCompleteDiscInfo (scanNew s detected) = .ok out ∧
        e = Effect.pipelineCall entry out (markProcessed (scanCleaned s detected) out)) := by
  intro e he
  rw [checkDrives_ok hdet] at he
  by_cases h0 : (scanNew s detected).length > 0
  · rw [if_pos h0] at he
    cases hen : env.getCompleteDiscInfo (scanNew s detected) with
    | error msg =>
      rw [hen] at he
      rcases List.mem_cons.mp he with h | h
      · exact Or.inl h
      · exact Or.inr (Or.inl ⟨_, mem_warnEffects h⟩)
    | ok out =>
      rw [hen] at he
      rcases List.mem_cons.mp he with h | h
      · exact Or.inl h
      · by_cases hout : out = []
        · subst hout
          simp [processDiscs] at h
        · rw [processDiscs_eq hout] at h
          cases hpr : env.pipelineResult with
          | ok u =>
            rw [hpr] at h
            simp only [List.mem_append, List.mem_cons, List.not_mem_nil, or_false,
              false_or] at h
            rcases h with (h | h) | h
            · exact Or.inr (Or.inr (Or.inr (Or.inl ⟨_, h⟩)))
            · exact Or.inr (Or.inr (Or.inr (Or.inr ⟨_, out, rfl, h⟩)))
            · exact Or.inr (Or.inr (Or.inr (Or.inl ⟨_, h⟩)))
          | error msg =>
            rw [hpr] at h
            simp only [List.mem_append, List.mem_cons, List.not_mem_nil, or_false,
              false_or] at h
            rcases h with ((h | h) | h) | h
            · exact Or.inr (Or.inr (Or.inr (Or.inl ⟨_, h⟩)))
            · exact Or.inr (Or.inr (Or.inr (Or.inr ⟨_, out, rfl, h⟩)))
            · exact Or.inr (Or.inr (Or.inl ⟨_, h⟩))
            · exact Or.inr (Or.inr (Or.inr (Or.inl ⟨_, h⟩)))
  · rw [if_neg h0] at he
    cases he

/-- C1: if a detected disc's `(driveId, title)` pair already equals the
entry stored for that drive in the Dedup Tracker, the scan cycle neither
enriches nor dispatches that disc: it appears in no enrichment call and in
no pipeline batch — the unchanged pair never re-triggers processing. -/
theorem checkDrives_idempotent_on_same_pair (env : ScanEnv) (s : ServiceState)
    (detected : List Disc) (D : Nat) (T : String)
    (hdet : env.detectAvailableDiscs = .ok detected)
    (hnodup : (detected.map Disc.driveNumber).Nodup)
    (hmem : (⟨D, T⟩ : Disc) ∈ detected)
    (htr : (D, T) ∈ s.processedDiscs)
    (henr : ∀ l out, env.getCompleteDiscInfo l = .ok out → ∀ it ∈ out, pairOf it ∈ l) :
    (∀ l, Effect.enrichCall l ∈ (checkDrives env s).2 → (⟨D, T⟩ : Disc) ∉ l) ∧
    (∀ entry batch tr, Effect.pipelineCall entry batch tr ∈ (checkDrives env s).2 →
      ∀ it ∈ batch, ¬(it.driveNumber = D ∧ it.title = T)) := by
  have hmapT : mapGet (buildDriveMap detected) D = some T := by
    rw [mapGet_buildDriveMap]
    exact lookupDisc_of_nodup hnodup hmem
  have hcl : (D, T) ∈ scanCleaned s detected :=
    mem_cleanupProcessed.mpr ⟨htr, hmapT⟩
  have hhas : mapHas (scanCleaned s detected) D = true := mapHas_of_mem hcl
  have hnotin : ∀ d ∈ scanNew s detected, d.driveNumber ≠ D := by
    intro d hd hdD
    have h2 := (List.mem_filter.mp hd).2
    rw [hdD, hhas] at h2
    simp at h2
  constructor
  · intro l hl hDT
    rcases checkDrives_effect_cases hdet _ hl with h | ⟨m, h⟩ | ⟨m, h⟩ | ⟨st, h⟩ | ⟨en, o, _, h⟩
    · injection h with h'
      subst h'
      exact hnotin _ hDT rfl
    all_goals cases h
  · intro entry batch tr hb it hit ⟨hD, hT⟩
    rcases checkDrives_effect_cases hdet _ hb with h | ⟨m, h⟩ | ⟨m, h⟩ | ⟨st, h⟩ | ⟨en, o, hen, h⟩
    · cases h
    · cases h
    · cases h
    · cases h
    · injection h with h1 h2 h3
      subst h2
      exact hnotin _ (henr _ _ hen it hit) (by simpa [pairOf] using hD)

/-- C2: for every non-empty batch, each record's `driveId → title` is in
the Dedup Tracker at the moment any pipeline entry point is invoked
(mark-before-work); the tracker still holds the whole batch afterward even
if the pipeline fails or raises; and a scan cycle run after dispatch that
still observes the batch's discs selects none of them as new — none appears
in its enrichment call or its pipeline batch. -/
theorem processDiscs_mark_before_work (env env2 : ScanEnv) (s : ServiceState)
    (items : List DiscItem) (detected2 : List Disc)
    (hne : items ≠ [])
    (hnd : (items.map DiscItem.driveNumber).Nodup)
    (hdet2 : env2.detectAvailableDiscs = .ok detected2)
    (hobs : ∀ it ∈ items, lookupDisc detected2 it.driveNumber = some it.title)
    (henr2 : ∀ l out, env2.getCompleteDiscInfo l = .ok out → ∀ it ∈ out, pairOf it ∈ l) :
    (∀ entry batch tr, Effect.pipelineCall entry batch tr ∈ (processDiscs env s (some items)).2 →
      ∀ it ∈ items, mapGet tr it.driveNumber = some it.title) ∧
    (∀ it ∈ items, mapGet (processDiscs env s (some items)).1.processedDiscs it.driveNumber
      = some it.title) ∧
    (∀ l, Effect.enrichCall l ∈ (checkDrives env2 (processDiscs env s (some items)).1).2 →
      ∀ d ∈ l, ∀ it ∈ items, d.driveNumber ≠ it.driveNumber) ∧
    (∀ entry batch tr,
      Effect.pipelineCall entry batch tr ∈ (checkDrives env2 (processDiscs env s (some items)).1).2 →
      ∀ b ∈ batch, ∀ it ∈ items, b.driveNumber ≠ it.driveNumber) := by
  have hmark : ∀ it ∈ items,
      mapGet (markProcessed s.processedDiscs items) it.driveNumber = some it.title :=
    fun it hit => mapGet_markProcessed_of_mem hnd hit _
  have hs' : (processDiscs env s (some items)).1 =
      { s with processedDiscs := markProcessed s.processedDiscs items,
               currentOperation := none } := by
    rw [processDiscs_eq hne]
  have hafter : ∀ it ∈ items,
      mapGet (processDiscs env s (some items)).1.processedDiscs it.driveNumber
        = some it.title := by
    intro it hit
    rw [hs']
    exact hmark it hit
  have hhas2 : ∀ it ∈ items,
      mapHas (scanCleaned (processDiscs env s (some items)).1 detected2) it.driveNumber
        = true := by
    intro it hit
    refine mapHas_of_mem (mem_cleanupProcessed.mpr ⟨mapGet_some_mem (hafter it hit), ?_⟩)
    rw [mapGet_buildDriveMap]
    exact hobs it hit
  have hnew2 : ∀ d ∈ scanNew (processDiscs env s (some items)).1 detected2,
      ∀ it ∈ items, d.driveNumber ≠ it.driveNumber := by
    intro d hd it hit heq
    have h2 := (List.mem_filter.mp hd).2
    rw [heq, hhas2 it hit] at h2
    simp at h2
  refine ⟨?_, hafter, ?_, ?_⟩
  · intro entry batch tr hb it hit
    rw [processDiscs_eq hne] at hb
    cases hpr : env.pipelineResult with
    | ok u =>
      rw [hpr] at hb
      simp only [List.mem_append, List.mem_cons, List.not_mem_nil, or_false,
        false_or] at hb
      rcases hb with (hb | hb) | hb
      · cases hb
      · injection hb with h1 h2 h3
        subst h3
        exact hmark it hit
      · cases hb
    | error msg =>
      rw [hpr] at hb
      simp only [List.mem_append, List.mem_cons, List.not_mem_nil, or_false,
        false_or] at hb
      rcases hb with ((hb | hb) | hb) | hb
      · cases hb
      · injection hb with h1 h2 h3
        subst h3
        exact hmark it hit
      · cases hb
      · cases hb
  · intro l hl d hd it hit
    rcases checkDrives_effect_cases hdet2 _ hl with h | ⟨m, h⟩ | ⟨m, h⟩ | ⟨st, h⟩ | ⟨en, o, _, h⟩
    · injection h with h'
      subst h'
      exact hnew2 d hd it hit
    all_goals cases h
  · intro entry batch tr hb b hbatch it hit
    rcases checkDrives_effect_cases hdet2 _ hb with h | ⟨m, h⟩ | ⟨m, h⟩ | ⟨st, h⟩ | ⟨en, o, hen, h⟩
    · cases h
    · cases h
    · cases h
    · cases h
    · injection h with h1 h2 h3
      subst h2
      exact hnew2 _ (henr2 _ _ hen b hbatch) it hit

theorem checkDrives_noop {env : ScanEnv} {s' : ServiceState} {detected : List Disc}
    (hdet : env.detectAvailableDiscs = .ok detected)
    (hmatch : ∀ p ∈ s'.processedDiscs, mapGet (buildDriveMap detected) p.1 = some p.2)
    (hall : ∀ d ∈ detected, mapHas s'.processedDiscs d.driveNumber = true) :
    checkDrives env s' = (s', []) := by
  have hclean : scanCleaned s' detected = s'.processedDiscs := by
    unfold scanCleaned cleanupProcessed
    apply List.filter_eq_self.mpr
    intro p hp
    simpa using hmatch p hp
  have hnew : scanNew s' detected = [] := by
    unfold scanNew
    apply List.filter_eq_nil_iff.mpr
    intro d hd
    rw [hclean]
    simp [hall d hd]
  rw [checkDrives_ok hdet, hnew]
  simp [hclean]

/-- C3: the scan cycle deletes a Dedup Tracker entry exactly when its drive
is absent from the snapshot's drive → title mapping or that mapping gives a
different title (an entry survives the cycle iff the snapshot still maps
its drive to its title); only discs whose drive has no remaining entry are
ever handed to enrichment; after such a purge, a drive that again reports a
title is treated as new and dispatched exactly once, with its new title
re-recorded; and re-running the cycle on the same snapshot afterwards is a
complete no-op. -/
theorem checkDrives_cleanup_reconsideration (env : ScanEnv) (s : ServiceState)
    (detected : List Disc)
    (hdet : env.detectAvailableDiscs = .ok detected)
    (hnodup : (detected.map Disc.driveNumber).Nodup)
    (henr : ∀ l, ∃ out, env.getCompleteDiscInfo l = Except.ok out ∧ out.map pairOf = l) :
    (∀ d t, (d, t) ∈ s.processedDiscs →
      ((d, t) ∈ (checkDrives env s).1.processedDiscs ↔
        mapGet (buildDriveMap detected) d = some t)) ∧
    (∀ l, Effect.enrichCall l ∈ (checkDrives env s).2 →
      ∀ d ∈ l, mapHas (scanCleaned s detected) d.driveNumber = false) ∧
    (∀ d t2, mapHas s.processedDiscs d = false → (⟨d, t2⟩ : Disc) ∈ detected →
      ((checkDrives env s).2.filter isPipelineCall).length = 1 ∧
      (∀ entry batch tr, Effect.pipelineCall entry batch tr ∈ (checkDrives env s).2 →
        ∃ it ∈ batch, it.driveNumber = d ∧ it.title = t2) ∧
      mapGet (checkDrives env s).1.processedDiscs d = some t2) ∧
    checkDrives env (checkDrives env s).1 = ((checkDrives env s).1, []) := by
  obtain ⟨out, hen, hpairs⟩ := henr (scanNew s detected)
  have hsubnd : ∀ it ∈ out, pairOf it ∈ scanNew s detected := by
    intro it hit
    rw [← hpairs]
    exact List.mem_map_of_mem _ hit
  have hnd_sub : ∀ d ∈ scanNew s detected, d ∈ detected :=
    fun d hd => (List.mem_filter.mp hd).1
  have hnd_new : ((scanNew s detected).map Disc.driveNumber).Nodup :=
    List.Nodup.sublist (List.Sublist.map _ (List.filter_sublist _)) hnodup
  have hout_nd : (out.map DiscItem.driveNumber).Nodup := by
    have heq : out.map DiscItem.driveNumber = (scanNew s detected).map Disc.driveNumber := by
      rw [← hpairs, List.map_map]
      rfl
    rw [heq]
    exact hnd_new
  have hout_notin : ∀ it ∈ out, mapHas (scanCleaned s detected) it.driveNumber = false := by
    intro it hit
    have h2 := (List.mem_filter.mp (hsubnd it hit)).2
    simpa [pairOf] using h2
  have hc_enrich : ∀ l, Effect.enrichCall l ∈ (checkDrives env s).2 →
      ∀ d ∈ l, mapHas (scanCleaned s detected) d.driveNumber = false := by
    intro l hl d hd
    rcases checkDrives_effect_cases hdet _ hl with h | ⟨m, h⟩ | ⟨m, h⟩ | ⟨st, h⟩ | ⟨en, o, _, h⟩
    · injection h with h'
      subst h'
      have h2 := (List.mem_filter.mp hd).2
      simpa using h2
    all_goals cases h
  by_cases h0 : (scanNew s detected).length > 0
  · have hout_ne : out ≠ [] := by
      intro hc
      rw [hc] at hpairs
      rw [← hpairs] at h0
      simp at h0
    have hck1 : (checkDrives env s).1 =
        { s with processedDiscs := markProcessed (scanCleaned s detected) out,
                 currentOperation := none } := by
      rw [checkDrives_ok hdet, if_pos h0]
      simp only [hen]
      rw [processDiscs_eq hout_ne]
    have hck2 : (checkDrives env s).2 =
        Effect.enrichCall (scanNew s detected) ::
          ([Effect.statusEvent "processing",
            Effect.pipelineCall
              (if env.autoRipMode = "backup" then .processBackupQueue
               else .processRippingQueue)
              out (markProcessed (scanCleaned s detected) out)]
            ++ (match env.pipelineResult with
                | .ok _ => []
                | .error e => [Effect.logError ("Auto-Rip processing failed: " ++ e)])
            ++ [Effect.statusEvent "scanning"]) := by
      rw [checkDrives_ok hdet, if_pos h0]
      simp only [hen]
      rw [processDiscs_eq hout_ne]
    have hmarkmatch : ∀ p ∈ markProcessed (scanCleaned s detected) out,
        mapGet (buildDriveMap detected) p.1 = some p.2 := by
      intro p hp
      obtain ⟨d, t⟩ := p
      rcases mem_of_mem_markProcessed hp with h | ⟨it, hit, h1, h2⟩
      · exact (mem_cleanupProcessed.mp h).2
      · subst h1
        subst h2
        rw [mapGet_buildDriveMap]
        exact lookupDisc_of_nodup hnodup (hnd_sub _ (hsubnd it hit))
    have hmarkall : ∀ d ∈ detected,
        mapHas (markProcessed (scanCleaned s detected) out) d.driveNumber = true := by
      intro d hd
      cases hc : mapHas (scanCleaned s detected) d.driveNumber with
      | true =>
        have hex : ∃ t, mapGet (scanCleaned s detected) d.driveNumber = some t := by
          cases hg : mapGet (scanCleaned s detected) d.driveNumber
          · rw [mapHas, hg] at hc
            cases hc
          · exact ⟨_, rfl⟩
        obtain ⟨t, ht⟩ := hex
        refine mapHas_of_mem (mem_markProcessed_of_ne (mapGet_some_mem ht) ?_)
        intro it hit heq
        have hfalse := hout_notin it hit
        rw [heq, hc] at hfalse
        cases hfalse
      | false =>
        have hdnew : d ∈ scanNew s detected :=
          List.mem_filter.mpr ⟨hd, by simp [hc]⟩
        have hdout : d ∈ out.map pairOf := by
          rw [hpairs]
          exact hdnew
        obtain ⟨it, hit, hpd⟩ := List.mem_map.mp hdout
        have hdn : it.driveNumber = d.driveNumber := congrArg Disc.driveNumber hpd
        have hget := mapGet_markProcessed_of_mem hout_nd hit (scanCleaned s detected)
        rw [mapHas, ← hdn, hget]
        rfl
    have ha : ∀ d t, (d, t) ∈ s.processedDiscs →
        ((d, t) ∈ (checkDrives env s).1.processedDiscs ↔
          mapGet (buildDriveMap detected) d = some t) := by
      intro d t htr
      rw [hck1]
      constructor
      · intro hmem2
        exact hmarkmatch (d, t) hmem2
      · intro hmap
        have hclm : (d, t) ∈ scanCleaned s detected := mem_cleanupProcessed.mpr ⟨htr, hmap⟩
        refine mem_markProcessed_of_ne hclm ?_
        intro it hit heq
        have hfalse := hout_notin it hit
        rw [heq, mapHas_of_mem hclm] at hfalse
        cases hfalse
    have hb : ∀ d t2, mapHas s.processedDiscs d = false → (⟨d, t2⟩ : Disc) ∈ detected →
        ((checkDrives env s).2.filter isPipelineCall).length = 1 ∧
        (∀ entry batch tr, Effect.pipelineCall entry batch tr ∈ (checkDrives env s).2 →
          ∃ it ∈ batch, it.driveNumber = d ∧ it.title = t2) ∧
        mapGet (checkDrives env s).1.processedDiscs d = some t2 := by
      intro d t2 hno hdmem
      have hclf : mapHas (scanCleaned s detected) d = false := by
        cases hc : mapHas (scanCleaned s detected) d
        · rfl
        · exact absurd (mapHas_cleanupProcessed_imp hc) (by simp [hno])
      have hdnew : (⟨d, t2⟩ : Disc) ∈ scanNew s detected :=
        List.mem_filter.mpr ⟨hdmem, by simp [hclf]⟩
      have hdout : (⟨d, t2⟩ : Disc) ∈ out.map pairOf := by
        rw [hpairs]
        exact hdnew
      obtain ⟨it, hit, hpd⟩ := List.mem_map.mp hdout
      have hitd : it.driveNumber = d := congrArg Disc.driveNumber hpd
      have hitt : it.title = t2 := congrArg Disc.title hpd
      refine ⟨?_, ?_, ?_⟩
      · rw [hck2]
        cases env.pipelineResult <;> simp [isPipelineCall]
      · intro entry batch tr hbmem
        rw [hck2] at hbmem
        cases hpr : env.pipelineResult with
        | ok u =>
          rw [hpr] at hbmem
          simp only [List.mem_cons, List.mem_append, List.not_mem_nil, or_false,
            false_or] at hbmem
          rcases hbmem with h | (h | h) | h
          · cases h
          · cases h
          · obtain ⟨h1, h2, h3⟩ := Effect.pipelineCall.inj h
            subst h2
            exact ⟨it, hit, hitd, hitt⟩
          · cases h
        | error msg =>
          rw [hpr] at hbmem
          simp only [List.mem_cons, List.mem_append, List.not_mem_nil, or_false,
            false_or] at hbmem
          rcases hbmem with h | ((h | h) | h) | h
          · cases h
          · cases h
          · obtain ⟨h1, h2, h3⟩ := Effect.pipelineCall.inj h
            subst h2
            exact ⟨it, hit, hitd, hitt⟩
          · cases h
          · cases h
      · rw [hck1]
        have hget := mapGet_markProcessed_of_mem hout_nd hit (scanCleaned s detected)
        rw [hitd, hitt] at hget
        exact hget
    have hnoop : checkDrives env (checkDrives env s).1 = ((checkDrives env s).1, []) := by
      rw [hck1]
      exact checkDrives_noop hdet hmarkmatch hmarkall
    exact ⟨ha, hc_enrich, hb, hnoop⟩
  · have hnd_nil : scanNew s detected = [] :=
      List.length_eq_zero.mp (Nat.eq_zero_of_not_pos h0)
    have hck1 : (checkDrives env s).1 = { s with processedDiscs := scanCleaned s detected } := by
      rw [checkDrives_ok hdet, if_neg h0]
    have ha : ∀ d t, (d, t) ∈ s.processedDiscs →
        ((d, t) ∈ (checkDrives env s).1.processedDiscs ↔
          mapGet (buildDriveMap detected) d = some t) := by
      intro d t htr
      rw [hck1]
      constructor
      · intro h
        exact (mem_cleanupProcessed.mp h).2
      · intro h
        exact mem_cleanupProcessed.mpr ⟨htr, h⟩
    have hb : ∀ d t2, mapHas s.processedDiscs d = false → (⟨d, t2⟩ : Disc) ∈ detected →
        ((checkDrives env s).2.filter isPipelineCall).length = 1 ∧
        (∀ entry batch tr, Effect.pipelineCall entry batch tr ∈ (checkDrives env s).2 →
          ∃ it ∈ batch, it.driveNumber = d ∧ it.title = t2) ∧
        mapGet (checkDrives env s).1.processedDiscs d = some t2 := by
      intro d t2 hno hdmem
      have hclf : mapHas (scanCleaned s detected) d = false := by
        cases hc : mapHas (scanCleaned s detected) d
        · rfl
        · exact absurd (mapHas_cleanupProcessed_imp hc) (by simp [hno])
      have hdnew : (⟨d, t2⟩ : Disc) ∈ scanNew s detected :=
        List.mem_filter.mpr ⟨hdmem, by simp [hclf]⟩
      rw [hnd_nil] at hdnew
      cases hdnew
    have hnoop : checkDrives env (checkDrives env s).1 = ((checkDrives env s).1, []) := by
      rw [hck1]
      apply checkDrives_noop hdet
      · intro p hp
        obtain ⟨d, t⟩ := p
        exact (mem_cleanupProcessed.mp hp).2
      · intro d hd
        cases hc : mapHas (scanCleaned s detected) d.driveNumber
        · exact absurd (hnd_nil ▸ List.mem_filter.mpr ⟨hd, by simp [hc]⟩)
            (List.not_mem_nil d)
        · rfl
    exact ⟨ha, hc_enrich, hb, hnoop⟩

/-! ### Witnesses: the claim theorems applied at concrete inputs -/

theorem checkDrives_idempotent_on_same_pair_witness :
    ((⟨1, "Movie A"⟩ : Disc) ∈ [(⟨1, "Movie A"⟩ : Disc)] ∧
      (1, "Movie A") ∈ sTracked.processedDiscs) ∧
    ((∀ l, Effect.enrichCall l ∈ (checkDrives envDemo sTracked).2 →
        (⟨1, "Movie A"⟩ : Disc) ∉ l) ∧
     (∀ entry batch tr, Effect.pipelineCall entry batch tr ∈ (checkDrives envDemo sTracked).2 →
        ∀ it ∈ batch, ¬(it.driveNumber = 1 ∧ it.title = "Movie A"))) :=
  ⟨⟨by decide, by decide⟩,
   checkDrives_idempotent_on_same_pair envDemo sTracked [⟨1, "Movie A"⟩] 1 "Movie A"
     rfl (by decide) (by decide) (by decide) enrichId_sub⟩

theorem processDiscs_mark_before_work_witness :
    (demoBatch ≠ [] ∧ (demoBatch.map DiscItem.driveNumber).Nodup ∧
      (∀ it ∈ demoBatch, lookupDisc [⟨1, "Movie A"⟩] it.driveNumber = some it.title)) ∧
    ((∀ entry batch tr,
        Effect.pipelineCall entry batch tr ∈ (processDiscs envPipeFail sDemo (some demoBatch)).2 →
        ∀ it ∈ demoBatch, mapGet tr it.driveNumber = some it.title) ∧
     (∀ it ∈ demoBatch,
        mapGet (processDiscs envPipeFail sDemo (some demoBatch)).1.processedDiscs it.driveNumber
          = some it.title) ∧
     (∀ l, Effect.enrichCall l ∈
        (checkDrives envDemo (processDiscs envPipeFail sDemo (some demoBatch)).1).2 →
        ∀ d ∈ l, ∀ it ∈ demoBatch, d.driveNumber ≠ it.driveNumber) ∧
     (∀ entry batch tr,
        Effect.pipelineCall entry batch tr ∈
          (checkDrives envDemo (processDiscs envPipeFail sDemo (some demoBatch)).1).2 →
        ∀ b ∈ batch, ∀ it ∈ demoBatch, b.driveNumber ≠ it.driveNumber)) :=
  ⟨⟨by decide, by decide, by decide⟩,
   processDiscs_mark_before_work envPipeFail envDemo sDemo demoBatch [⟨1, "Movie A"⟩]
     (by decide) (by decide) rfl (by decide) enrichId_sub⟩

theorem checkDrives_cleanup_reconsideration_witness :
    (List.map Disc.driveNumber [⟨1, "Movie A"⟩]).Nodup ∧
    ((∀ d t, (d, t) ∈ sDemo.processedDiscs →
       ((d, t) ∈ (checkDrives envDemo sDemo).1.processedDiscs ↔
         mapGet (buildDriveMap [⟨1, "Movie A"⟩]) d = some t)) ∧
     (∀ l, Effect.enrichCall l ∈ (checkDrives envDemo sDemo).2 →
       ∀ d ∈ l, mapHas (scanCleaned sDemo [⟨1, "Movie A"⟩]) d.driveNumber = false) ∧
     (∀ d t2, mapHas sDemo.processedDiscs d = false → (⟨d, t2⟩ : Disc) ∈ [⟨1, "Movie A"⟩] →
       ((checkDrives envDemo sDemo).2.filter isPipelineCall).length = 1 ∧
       (∀ entry batch tr, Effect.pipelineCall entry batch tr ∈ (checkDrives envDemo sDemo).2 →
         ∃ it ∈ batch, it.driveNumber = d ∧ it.title = t2) ∧
       mapGet (checkDrives envDemo sDemo).1.processedDiscs d = some t2) ∧
     checkDrives envDemo (checkDrives envDemo sDemo).1 = ((checkDrives envDemo sDemo).1, [])) :=
  ⟨by decide,
   checkDrives_cleanup_reconsideration envDemo sDemo [⟨1, "Movie A"⟩]
     rfl (by decide) enrichId_total⟩

theorem pollTick_dropped_when_busy_witness :
    (sBusy.currentOperation.isSome = true ∨ sBusy.isChecking = true) ∧
    pollTick envDemo sBusy = (sBusy, [], false) :=
  ⟨Or.inl rfl, pollTick_dropped_when_busy envDemo sBusy (Or.inl rfl)⟩

theorem processDiscs_terminal_step_witness :
    demoBatch ≠ [] ∧
    ((processDiscs envPipeFail sDemo (some demoBatch)).1.currentOperation = none ∧
     (processDiscs envPipeFail sDemo (some demoBatch)).1.isPolling = sDemo.isPolling ∧
     (processDiscs envPipeFail sDemo (some demoBatch)).2.getLast?
        = some (Effect.statusEvent "scanning")) :=
  ⟨by decide, processDiscs_terminal_step envPipeFail sDemo demoBatch (by decide)⟩

theorem checkDrives_transient_scan_error_witness :
    checkDrives envFail sTracked =
      (sTracked, [Effect.logWarning "Auto-Rip polling warning: scan failed"]) := by
  have h := (checkDrives_transient_scan_error envFail sTracked "scan failed").1 rfl
  rw [h]
  decide

theorem processDiscs_mode_routing_witness :
    (demoBatch ≠ [] ∧ envDemo.autoRipMode = "rip") ∧
    ((envDemo.autoRipMode = "rip" →
      (∃ tr, Effect.pipelineCall .processRippingQueue demoBatch tr
          ∈ (processDiscs envDemo sDemo (some demoBatch)).2) ∧
      (∀ b tr, Effect.pipelineCall .processBackupQueue b tr
          ∉ (processDiscs envDemo sDemo (some demoBatch)).2)) ∧
     (envDemo.autoRipMode = "backup" →
      (∃ tr, Effect.pipelineCall .processBackupQueue demoBatch tr
          ∈ (processDiscs envDemo sDemo (some demoBatch)).2) ∧
      (∀ b tr, Effect.pipelineCall .processRippingQueue b tr
          ∉ (processDiscs envDemo sDemo (some demoBatch)).2))) :=
  ⟨⟨by decide, rfl⟩, processDiscs_mode_routing envDemo sDemo demoBatch (by decide)⟩

theorem single_timer_invariant_witness :
    timerInv sDemo ⟨5, []⟩ ∧
    (timerInv (startPolling sDemo ⟨5, []⟩).1 (startPolling sDemo ⟨5, []⟩).2 ∧
     timerInv (stopPolling sDemo ⟨5, []⟩).1 (stopPolling sDemo ⟨5, []⟩).2 ∧
     (stopPolling sDemo ⟨5, []⟩).1.pollInterval = none ∧
     timerInv (start sDemo ⟨5, []⟩).1 (start sDemo ⟨5, []⟩).2.1 ∧
     timerInv (stop sDemo ⟨5, []⟩).1 (stop sDemo ⟨5, []⟩).2.1) :=
  ⟨rfl, single_timer_invariant sDemo ⟨5, []⟩ rfl⟩

theorem processDiscs_default_rip_witness :
    (demoBatch ≠ [] ∧ envTypo.autoRipMode ≠ "backup") ∧
    ((∃ tr, Effect.pipelineCall .processRippingQueue demoBatch tr
        ∈ (processDiscs envTypo sDemo (some demoBatch)).2) ∧
     (∀ b tr, Effect.pipelineCall .processBackupQueue b tr
        ∉ (processDiscs envTypo sDemo (some demoBatch)).2)) :=
  ⟨⟨by decide, by decide⟩,
   processDiscs_default_rip envTypo sDemo demoBatch (by decide) (by decide)⟩

end AutoRip
